import Mathlib

/-
Shallow embedding of simulation_engine.py: the Variant data model, the
PeekingProxyMethod and BayesianFramework decision procedures, and theorems
about the claims of the specification.  Random draws from numpy and scipy
samplers are modelled as explicit oracle parameters; floating point
arithmetic is modelled exactly over the rationals.
-/

/-- Embeds the Variant class: ground-truth parameters, the derived gamma
parameters computed at construction, and the accumulated observation state. -/
structure Variant where
  name : String
  true_conv_rate : ℚ
  true_aov : ℚ
  gamma_scale : ℚ
  gamma_shape : ℚ
  visitors : ℕ
  conversions : ℕ
  conversion_revenues : List ℚ
deriving DecidableEq, Repr

/-- Embeds the Variant constructor.  The Python body computes
variance = aov_std_dev ** 2, gamma_scale = variance / true_aov and
gamma_shape = true_aov / gamma_scale; each float division by zero raises
ZeroDivisionError, modelled here as the none result at exactly the guards
the interpreter would trip. -/
def Variant.init (name : String) (true_conv_rate true_aov aov_std_dev : ℚ) :
    Option Variant :=
  let variance := aov_std_dev ^ 2
  if true_aov = 0 then none
  else
    let gscale := variance / true_aov
    if gscale = 0 then none
    else some
      { name := name
        true_conv_rate := true_conv_rate
        true_aov := true_aov
        gamma_scale := gscale
        gamma_shape := true_aov / gscale
        visitors := 0
        conversions := 0
        conversion_revenues := [] }

/-- Embeds Variant.add_visitors.  The binomial draw of new conversions and
the gamma draws of new revenues are passed in explicitly: c models
np.random.binomial(n, true_conv_rate) and revs models
np.random.gamma(shape, scale, c). -/
def Variant.add_visitors (v : Variant) (n c : ℕ) (revs : List ℚ) : Variant :=
  { v with
    visitors := v.visitors + n
    conversions := v.conversions + c
    conversion_revenues := v.conversion_revenues ++ revs }

/-- One daily growth event: the visitor count together with the sampled
conversion count and sampled revenue values for that call. -/
structure GrowthStep where
  n : ℕ
  c : ℕ
  revs : List ℚ
deriving DecidableEq, Repr

/-- Applies a sequence of add_visitors calls in order. -/
def applySteps (v : Variant) : List GrowthStep → Variant
  | [] => v
  | g :: rest => applySteps (v.add_visitors g.n g.c g.revs) rest

/-- Embeds the Methodology base-class state: the insertion-ordered variant
dictionary (as a list), the methodology name, and the stopping state. -/
structure Methodology where
  variants : List Variant
  name : String
  is_stopped : Bool
  decision : String
  stop_day : ℤ
deriving DecidableEq, Repr

/-- Embeds one insertion into a Python dict keyed by variant name:
an existing key keeps its position and takes the new value, a new key is
appended. -/
def dictInsert (l : List Variant) (v : Variant) : List Variant :=
  if l.any (fun w => w.name == v.name) then
    l.map (fun w => if w.name == v.name then v else w)
  else l ++ [v]

/-- Embeds the dict comprehension building self.variants from the variant
list in the Methodology constructor. -/
def buildDict (vs : List Variant) : List Variant :=
  vs.foldl dictInsert []

/-- Embeds the Methodology constructor. -/
def Methodology.init (vs : List Variant) (name : String) : Methodology :=
  { variants := buildDict vs
    name := name
    is_stopped := false
    decision := "N/A (Timed Out)"
    stop_day := -1 }

/-- The winner decision string built in both run_check bodies. -/
def winnerDecision (n : String) : String :=
  "Declared \x27" ++ n ++ "\x27 winner"

/-- The empirical conversion-rate point estimate counts[i] / nobs[i]. -/
def convRate (v : Variant) : ℚ :=
  (v.conversions : ℚ) / (v.visitors : ℚ)

/-- Embeds the variant loop of PeekingProxyMethod.run_check.  The oracle
ztest models statsmodels proportions_ztest applied to
(variant.conversions, control.conversions, variant.visitors,
control.visitors) with alternative larger; a none result models a raised
exception, which the source catches and ignores. -/
def peekingLoop (ztest : ℕ → ℕ → ℕ → ℕ → Option ℚ) (control : Variant)
    (day : ℤ) (m : Methodology) : List Variant → Methodology
  | [] => m
  | v :: rest =>
    if v.name = "A" then peekingLoop ztest control day m rest
    else if v.conversions < 5 ∨ control.conversions < 5 then
      peekingLoop ztest control day m rest
    else if convRate control < convRate v then
      match ztest v.conversions control.conversions v.visitors control.visitors with
      | some p =>
        if p < 1/20 then
          { m with is_stopped := true, decision := winnerDecision v.name,
                   stop_day := day }
        else peekingLoop ztest control day m rest
      | none => peekingLoop ztest control day m rest
    else peekingLoop ztest control day m rest

/-- Embeds PeekingProxyMethod.run_check. -/
def PeekingProxyMethod.run_check (m : Methodology)
    (ztest : ℕ → ℕ → ℕ → ℕ → Option ℚ) (day : ℤ) : Methodology :=
  if m.is_stopped then m
  else
    match m.variants.find? (fun v => v.name == "A") with
    | none => m
    | some control =>
      if control.visitors = 0 then m
      else peekingLoop ztest control day m m.variants

/-- Embeds the BayesianFramework state: the Methodology state plus the
loss threshold epsilon and the Monte Carlo sample count S fixed at
construction (the source defaults are epsilon = 0.001 and S = 20000). -/
structure BayesianFramework extends Methodology where
  epsilon : ℚ
  S : ℕ
deriving DecidableEq, Repr

/-- A posterior-distribution request made to the samplers inside
BayesianFramework.run_check.  The studentT constructor records the location
scale parameter by its square: the source passes
scale = np.sqrt(beta_k / (alpha_k * n_k)) to sps.t.rvs, so scaleSq is the
exact rational beta_k / (alpha_k * n_k) whose square root the source takes. -/
inductive Posterior where
  | beta (a b : ℚ)
  | studentT (df loc scaleSq : ℚ)
  | normal (loc scale : ℚ)
deriving DecidableEq, Repr

/-- Embeds the conversion model of BayesianFramework.run_check: the
distribution np.random.beta is asked to sample, with
conv_alpha = 1.0 + conversions and conv_beta = 1.0 + (visitors − conversions)
computed in Python int/float arithmetic. -/
def convPosterior (v : Variant) : Posterior :=
  Posterior.beta (1 + (v.conversions : ℚ))
    (1 + ((v.visitors : ℚ) - (v.conversions : ℚ)))

/-- Embeds the value model of BayesianFramework.run_check: for more than one
conversion, the Normal-Inverse-Gamma update with priors
mu_0 = 100, n_0 = 1, alpha_0 = 1, beta_0 = 1 and the Student-t request
(df_t, mu_k, scale_t squared); otherwise the wide normal fallback
sps.norm.rvs(loc=100, scale=50).  As in the source, x_bar is
np.mean(conversion_revenues), dividing by the length of the revenue list,
while k is the conversion counter. -/
def valuePosterior (v : Variant) : Posterior :=
  if 1 < v.conversions then
    let mu_0 : ℚ := 100
    let n_0 : ℚ := 1
    let alpha_0 : ℚ := 1
    let beta_0 : ℚ := 1
    let k : ℚ := (v.conversions : ℚ)
    let x_bar : ℚ := v.conversion_revenues.sum / (v.conversion_revenues.length : ℚ)
    let ssd : ℚ := (v.conversion_revenues.map (fun x => (x - x_bar) ^ 2)).sum
    let mu_k := (n_0 * mu_0 + k * x_bar) / (n_0 + k)
    let n_k := n_0 + k
    let alpha_k := alpha_0 + k / 2
    let beta_k := beta_0 + 1/2 * ssd + (k * n_0 / (n_0 + k)) * (1/2) * (x_bar - mu_0) ^ 2
    Posterior.studentT (2 * alpha_k) mu_k (beta_k / (alpha_k * n_k))
  else Posterior.normal 100 50

/-- Embeds the rpd_samples dictionary: for the variant at position i of the
insertion-ordered dict, the S conversion-rate draws come from the sampler
stream 2*i asked for convPosterior and the S value draws from stream 2*i+1
asked for valuePosterior, and entry s of the combined list is the product of
the two draws at index s. -/
def rpdSamples (variants : List Variant) (draw : ℕ → Posterior → ℕ → ℚ)
    (S : ℕ) : List (String × List ℚ) :=
  variants.enum.map (fun p =>
    (p.2.name, (List.range S).map (fun s =>
      draw (2 * p.1) (convPosterior p.2) s * draw (2 * p.1 + 1) (valuePosterior p.2) s)))

/-- The maximum of a list of rationals, embedding the row maximum
all_samples_df.max(axis=1) over the per-variant values of one draw. -/
def listMax : List ℚ → ℚ
  | [] => 0
  | [x] => x
  | x :: y :: rest => max x (listMax (y :: rest))

/-- Embeds the expected_losses dictionary: for each variant, the mean over
the S draws of (per-draw maximum rpd) − (own rpd draw). -/
def expectedLosses (variants : List Variant) (draw : ℕ → Posterior → ℕ → ℚ)
    (S : ℕ) : List (String × ℚ) :=
  let rpd := rpdSamples variants draw S
  rpd.map (fun p =>
    (p.1, (((List.range S).map
      (fun s => listMax (rpd.map (fun q => q.2.getD s 0)) - p.2.getD s 0)).sum) / (S : ℚ)))

/-- One comparison step of the Python builtin min with a key function:
the candidate replaces the incumbent only when strictly smaller, so the
first minimal entry in iteration order wins. -/
def argminStep (best q : String × ℚ) : String × ℚ :=
  if q.2 < best.2 then q else best

/-- Embeds min(expected_losses, key=expected_losses.get) together with the
lookup of its value; none embeds the ValueError the builtin raises on an
empty dict. -/
def argminFirst : List (String × ℚ) → Option (String × ℚ)
  | [] => none
  | p :: rest => some (rest.foldl argminStep p)

/-- Embeds BayesianFramework.run_check.  The draw oracle models the numpy
and scipy samplers; a none result embeds the uncaught ValueError raised by
min over an empty variant dictionary. -/
def BayesianFramework.run_check (m : BayesianFramework)
    (draw : ℕ → Posterior → ℕ → ℚ) (day : ℤ) : Option BayesianFramework :=
  if m.is_stopped then some m
  else
    match argminFirst (expectedLosses m.variants draw m.S) with
    | none => none
    | some best =>
      if best.2 < m.epsilon then
        some { m with
          is_stopped := true
          stop_day := day
          decision := if best.1 = "A" then "Stopped for Futility"
                      else winnerDecision best.1 }
      else some m

/-
Helper lemmas shared by the claim theorems.
-/

/-- Every element of a list is bounded by listMax. -/
theorem le_listMax {l : List ℚ} {x : ℚ} (hx : x ∈ l) : x ≤ listMax l := by
  induction l with
  | nil => cases hx
  | cons a t ih =>
    cases t with
    | nil =>
      have : x = a := by simpa using hx
      simp [listMax, this]
    | cons b u =>
      show x ≤ max a (listMax (b :: u))
      rcases List.mem_cons.mp hx with h | h
      · exact h ▸ le_max_left _ _
      · exact le_trans (ih h) (le_max_right _ _)

/-- listMax of a nonempty list is attained by one of its elements. -/
theorem listMax_mem : ∀ {l : List ℚ}, l ≠ [] → listMax l ∈ l := by
  intro l
  induction l with
  | nil => intro h; exact absurd rfl h
  | cons a t ih =>
    intro _
    cases t with
    | nil => simp [listMax]
    | cons b u =>
      have h2 : listMax (a :: b :: u) = max a (listMax (b :: u)) := rfl
      rcases le_total a (listMax (b :: u)) with h | h
      · rw [h2, max_eq_right h]
        exact List.mem_cons_of_mem _ (ih (by simp))
      · rw [h2, max_eq_left h]
        exact List.mem_cons_self _ _

/-- The fold implementing the Python builtin min lands on the seed or on a
list element. -/
theorem argmin_foldl_mem : ∀ (l : List (String × ℚ)) (p : String × ℚ),
    l.foldl argminStep p = p ∨ l.foldl argminStep p ∈ l := by
  intro l
  induction l with
  | nil => intro p; left; rfl
  | cons r t ih =>
    intro p
    rw [List.foldl_cons]
    rcases ih (argminStep p r) with h | h
    · rw [h]
      unfold argminStep
      split
      · right; exact List.mem_cons_self _ _
      · left; rfl
    · right; exact List.mem_cons_of_mem _ h

/-- The fold implementing the Python builtin min returns a value below the
seed and below every list element. -/
theorem argmin_foldl_le : ∀ (l : List (String × ℚ)) (p : String × ℚ),
    (l.foldl argminStep p).2 ≤ p.2 ∧ ∀ q ∈ l, (l.foldl argminStep p).2 ≤ q.2 := by
  intro l
  induction l with
  | nil =>
    intro p
    refine ⟨le_refl _, ?_⟩
    intro q hq
    cases hq
  | cons r t ih =>
    intro p
    rw [List.foldl_cons]
    obtain ⟨h1, h2⟩ := ih (argminStep p r)
    have hstep_p : (argminStep p r).2 ≤ p.2 := by
      unfold argminStep
      split
      · exact le_of_lt (by assumption)
      · exact le_refl _
    have hstep_r : (argminStep p r).2 ≤ r.2 := by
      unfold argminStep
      split
      · exact le_refl _
      · exact le_of_not_lt (by assumption)
    refine ⟨le_trans h1 hstep_p, ?_⟩
    intro q hq
    rcases List.mem_cons.mp hq with h | h
    · subst h
      exact le_trans h1 hstep_r
    · exact h2 q h

/-- There are as many expected-loss entries as variants. -/
theorem expectedLosses_length (variants : List Variant)
    (draw : ℕ → Posterior → ℕ → ℚ) (S : ℕ) :
    (expectedLosses variants draw S).length = variants.length := by
  simp [expectedLosses, rpdSamples]

/-- A winner decision string is never the futility decision string. -/
theorem winnerDecision_ne_futility (n : String) :
    winnerDecision n ≠ "Stopped for Futility" := by
  intro h
  have hd : (winnerDecision n).data = ("Stopped for Futility" : String).data := by
    rw [h]
  rw [winnerDecision] at hd
  simp [String.data_append] at hd


/-- Loop step: the control name is skipped. -/
theorem peekingLoop_cons_ctl {z : ℕ → ℕ → ℕ → ℕ → Option ℚ} {ctl : Variant}
    {day : ℤ} {m : Methodology} {v : Variant} {rest : List Variant}
    (hA : v.name = "A") :
    peekingLoop z ctl day m (v :: rest) = peekingLoop z ctl day m rest := by
  rw [peekingLoop, if_pos hA]

/-- Loop step: a variant failing the minimum-conversions gate is skipped. -/
theorem peekingLoop_cons_gate {z : ℕ → ℕ → ℕ → ℕ → Option ℚ} {ctl : Variant}
    {day : ℤ} {m : Methodology} {v : Variant} {rest : List Variant}
    (hA : ¬ v.name = "A") (hgate : v.conversions < 5 ∨ ctl.conversions < 5) :
    peekingLoop z ctl day m (v :: rest) = peekingLoop z ctl day m rest := by
  rw [peekingLoop, if_neg hA, if_pos hgate]

/-- Loop step: a variant whose point estimate does not beat the control is
skipped. -/
theorem peekingLoop_cons_rate {z : ℕ → ℕ → ℕ → ℕ → Option ℚ} {ctl : Variant}
    {day : ℤ} {m : Methodology} {v : Variant} {rest : List Variant}
    (hA : ¬ v.name = "A") (hgate : ¬ (v.conversions < 5 ∨ ctl.conversions < 5))
    (hrate : ¬ convRate ctl < convRate v) :
    peekingLoop z ctl day m (v :: rest) = peekingLoop z ctl day m rest := by
  rw [peekingLoop, if_neg hA, if_neg hgate, if_neg hrate]

/-- Loop step: a significance-test failure is swallowed and evaluation
moves on to the remaining variants. -/
theorem peekingLoop_cons_none {z : ℕ → ℕ → ℕ → ℕ → Option ℚ} {ctl : Variant}
    {day : ℤ} {m : Methodology} {v : Variant} {rest : List Variant}
    (hA : ¬ v.name = "A") (hgate : ¬ (v.conversions < 5 ∨ ctl.conversions < 5))
    (hrate : convRate ctl < convRate v)
    (hz : z v.conversions ctl.conversions v.visitors ctl.visitors = none) :
    peekingLoop z ctl day m (v :: rest) = peekingLoop z ctl day m rest := by
  rw [peekingLoop, if_neg hA, if_neg hgate, if_pos hrate, hz]

/-- Loop step: a tested variant with a returned p-value either stops the
methodology (p below 0.05) or is passed over. -/
theorem peekingLoop_cons_some {z : ℕ → ℕ → ℕ → ℕ → Option ℚ} {ctl : Variant}
    {day : ℤ} {m : Methodology} {v : Variant} {rest : List Variant} {p : ℚ}
    (hA : ¬ v.name = "A") (hgate : ¬ (v.conversions < 5 ∨ ctl.conversions < 5))
    (hrate : convRate ctl < convRate v)
    (hz : z v.conversions ctl.conversions v.visitors ctl.visitors = some p) :
    peekingLoop z ctl day m (v :: rest) =
      if p < 1/20 then
        { m with is_stopped := true, decision := winnerDecision v.name,
                 stop_day := day }
      else peekingLoop z ctl day m rest := by
  rw [peekingLoop, if_neg hA, if_neg hgate, if_pos hrate, hz]

/-- The variant loop either returns the incoming state unchanged or returns
the stop state of some listed variant whose name is not the control name. -/
theorem peekingLoop_self_or_stop (z : ℕ → ℕ → ℕ → ℕ → Option ℚ) (ctl : Variant)
    (day : ℤ) (m : Methodology) :
    ∀ l : List Variant, peekingLoop z ctl day m l = m ∨
      ∃ v ∈ l, v.name ≠ "A" ∧
        peekingLoop z ctl day m l =
          { m with is_stopped := true, decision := winnerDecision v.name,
                   stop_day := day } := by
  intro l
  induction l with
  | nil => left; rfl
  | cons v rest ih =>
    have lift : peekingLoop z ctl day m (v :: rest) = peekingLoop z ctl day m rest →
        (peekingLoop z ctl day m (v :: rest) = m ∨
        ∃ w ∈ v :: rest, w.name ≠ "A" ∧ peekingLoop z ctl day m (v :: rest) =
          { m with is_stopped := true, decision := winnerDecision w.name,
                   stop_day := day }) := by
      intro he
      rw [he]
      rcases ih with h | ⟨w, hw, hwA, hst⟩
      · exact Or.inl h
      · exact Or.inr ⟨w, List.mem_cons_of_mem _ hw, hwA, hst⟩
    by_cases hA : v.name = "A"
    · exact lift (peekingLoop_cons_ctl hA)
    · by_cases hgate : v.conversions < 5 ∨ ctl.conversions < 5
      · exact lift (peekingLoop_cons_gate hA hgate)
      · by_cases hrate : convRate ctl < convRate v
        · rcases hz : z v.conversions ctl.conversions v.visitors ctl.visitors with _ | p
          · exact lift (peekingLoop_cons_none hA hgate hrate hz)
          · by_cases hp : p < 1/20
            · right
              refine ⟨v, List.mem_cons_self _ _, hA, ?_⟩
              rw [peekingLoop_cons_some hA hgate hrate hz, if_pos hp]
            · exact lift (by rw [peekingLoop_cons_some hA hgate hrate hz, if_neg hp])
        · exact lift (peekingLoop_cons_rate hA hgate hrate)

/-- When the significance-test oracle always reports a failure, the variant
loop leaves the state untouched. -/
theorem peekingLoop_none (z : ℕ → ℕ → ℕ → ℕ → Option ℚ) (ctl : Variant)
    (day : ℤ) (m : Methodology) (hz : ∀ a b c d, z a b c d = none) :
    ∀ l : List Variant, peekingLoop z ctl day m l = m := by
  intro l
  induction l with
  | nil => rfl
  | cons v rest ih =>
    by_cases hA : v.name = "A"
    · rw [peekingLoop_cons_ctl hA]
      exact ih
    · by_cases hgate : v.conversions < 5 ∨ ctl.conversions < 5
      · rw [peekingLoop_cons_gate hA hgate]
        exact ih
      · by_cases hrate : convRate ctl < convRate v
        · rw [peekingLoop_cons_none hA hgate hrate (hz _ _ _ _)]
          exact ih
        · rw [peekingLoop_cons_rate hA hgate hrate]
          exact ih

/-- The variant loop consults the significance-test oracle only at argument
tuples passing the data gates: two oracles agreeing there are
interchangeable. -/
theorem peekingLoop_congr (z₁ z₂ : ℕ → ℕ → ℕ → ℕ → Option ℚ) (ctl : Variant)
    (day : ℤ) (m : Methodology)
    (hz : ∀ a b c d : ℕ, ¬ a < 5 → ¬ b < 5 →
      (b : ℚ) / (d : ℚ) < (a : ℚ) / (c : ℚ) → z₁ a b c d = z₂ a b c d) :
    ∀ l : List Variant, peekingLoop z₁ ctl day m l = peekingLoop z₂ ctl day m l := by
  intro l
  induction l with
  | nil => rfl
  | cons v rest ih =>
    by_cases hA : v.name = "A"
    · rw [peekingLoop_cons_ctl hA, peekingLoop_cons_ctl hA]
      exact ih
    · by_cases hgate : v.conversions < 5 ∨ ctl.conversions < 5
      · rw [peekingLoop_cons_gate hA hgate, peekingLoop_cons_gate hA hgate]
        exact ih
      · by_cases hrate : convRate ctl < convRate v
        · have h12 : z₁ v.conversions ctl.conversions v.visitors ctl.visitors =
              z₂ v.conversions ctl.conversions v.visitors ctl.visitors := by
            push_neg at hgate
            exact hz _ _ _ _ (Nat.not_lt.mpr hgate.1) (Nat.not_lt.mpr hgate.2) hrate
          rcases hz2 : z₂ v.conversions ctl.conversions v.visitors ctl.visitors with _ | p
          · rw [peekingLoop_cons_none hA hgate hrate (h12.trans hz2),
              peekingLoop_cons_none hA hgate hrate hz2]
            exact ih
          · rw [peekingLoop_cons_some hA hgate hrate (h12.trans hz2),
              peekingLoop_cons_some hA hgate hrate hz2]
            by_cases hp : p < 1/20
            · rw [if_pos hp, if_pos hp]
            · rw [if_neg hp, if_neg hp]
              exact ih
        · rw [peekingLoop_cons_rate hA hgate hrate, peekingLoop_cons_rate hA hgate hrate]
          exact ih

/-
Claim theorems.
-/

/-- Claim C6: once the stopped flag of a methodology is true, every later
run_check call, with any day argument, returns the state unchanged, so the
decision label, the stop day and the stopped flag are all frozen, for both
PeekingProxyMethod and BayesianFramework. -/
theorem stopped_methodology_noop (m : Methodology) (b : BayesianFramework)
    (ztest : ℕ → ℕ → ℕ → ℕ → Option ℚ) (draw : ℕ → Posterior → ℕ → ℚ)
    (day dayb : ℤ) (hm : m.is_stopped = true) (hb : b.is_stopped = true) :
    PeekingProxyMethod.run_check m ztest day = m ∧
    BayesianFramework.run_check b draw dayb = some b := by
  constructor
  · rw [PeekingProxyMethod.run_check, if_pos hm]
  · rw [BayesianFramework.run_check, if_pos hb]

def mStopC6 : Methodology :=
  { variants := [], name := "Peeking (Proxy)", is_stopped := true,
    decision := winnerDecision "B", stop_day := 3 }

def bStopC6 : BayesianFramework :=
  { variants := [], name := "Bayesian Framework", is_stopped := true,
    decision := "Stopped for Futility", stop_day := 2, epsilon := 1/1000,
    S := 20000 }

/-- Witness for claim C6 at concrete stopped states. -/
theorem stopped_methodology_noop_witness :
    mStopC6.is_stopped = true ∧ bStopC6.is_stopped = true ∧
    PeekingProxyMethod.run_check mStopC6 (fun _ _ _ _ => some (1/100)) 9 = mStopC6 ∧
    BayesianFramework.run_check bStopC6 (fun _ _ _ => 0) 9 = some bStopC6 :=
  ⟨rfl, rfl,
   (stopped_methodology_noop mStopC6 bStopC6 (fun _ _ _ _ => some (1/100))
     (fun _ _ _ => 0) 9 9 rfl rfl).1,
   (stopped_methodology_noop mStopC6 bStopC6 (fun _ _ _ _ => some (1/100))
     (fun _ _ _ => 0) 9 9 rfl rfl).2⟩

/-- Claim C8: a significance-test failure inside
PeekingProxyMethod.run_check is caught at the point of use.  A variant
whose test raises is simply passed over, exactly as if it were not
significant, and a call during which every consulted test fails returns
the methodology state unchanged, so nothing propagates to the caller and
evaluation resumes on the next call. -/
theorem ztest_failure_not_significant :
    (∀ (m : Methodology) (z : ℕ → ℕ → ℕ → ℕ → Option ℚ) (day : ℤ),
      (∀ a b c d, z a b c d = none) → PeekingProxyMethod.run_check m z day = m) ∧
    (∀ (z : ℕ → ℕ → ℕ → ℕ → Option ℚ) (ctl : Variant) (day : ℤ)
      (m : Methodology) (v : Variant) (rest : List Variant),
      z v.conversions ctl.conversions v.visitors ctl.visitors = none →
      peekingLoop z ctl day m (v :: rest) = peekingLoop z ctl day m rest) := by
  constructor
  · intro m z day hz
    rw [PeekingProxyMethod.run_check]
    split
    · rfl
    · split
      · rfl
      · split
        · rfl
        · exact peekingLoop_none z _ day m hz m.variants
  · intro z ctl day m v rest hz
    by_cases hA : v.name = "A"
    · exact peekingLoop_cons_ctl hA
    · by_cases hgate : v.conversions < 5 ∨ ctl.conversions < 5
      · exact peekingLoop_cons_gate hA hgate
      · by_cases hrate : convRate ctl < convRate v
        · exact peekingLoop_cons_none hA hgate hrate hz
        · exact peekingLoop_cons_rate hA hgate hrate

def vA8 : Variant :=
  { name := "A", true_conv_rate := 3/100, true_aov := 100, gamma_scale := 16,
    gamma_shape := 25/4, visitors := 100, conversions := 6,
    conversion_revenues := [] }

def vB8 : Variant :=
  { name := "B", true_conv_rate := 3/100, true_aov := 100, gamma_scale := 16,
    gamma_shape := 25/4, visitors := 50, conversions := 6,
    conversion_revenues := [] }

def mC8 : Methodology :=
  { variants := [vA8, vB8], name := "Peeking (Proxy)", is_stopped := false,
    decision := "N/A (Timed Out)", stop_day := -1 }

/-- Witness for claim C8 with an always-failing oracle at a concrete state. -/
theorem ztest_failure_not_significant_witness :
    (∀ a b c d : ℕ, (fun _ _ _ _ => (none : Option ℚ)) a b c d = none) ∧
    PeekingProxyMethod.run_check mC8 (fun _ _ _ _ => none) 4 = mC8 ∧
    peekingLoop (fun _ _ _ _ => none) vA8 4 mC8 [vB8] =
      peekingLoop (fun _ _ _ _ => none) vA8 4 mC8 [] :=
  ⟨fun _ _ _ _ => rfl,
   ztest_failure_not_significant.1 mC8 (fun _ _ _ _ => none) 4 (fun _ _ _ _ => rfl),
   ztest_failure_not_significant.2 (fun _ _ _ _ => none) vA8 4 mC8 vB8 [] rfl⟩

/-- Claim C4 (amended): a PeekingProxyMethod whose variant set has no entry
named A is left completely unchanged by every run_check call, for any
oracle and any day, and the call always returns.  BayesianFramework does
not look for a control at all: it runs its full check without one and can
stop and declare a winner, as the companion counterexample shows. -/
theorem peeking_missing_control_noop (m : Methodology)
    (z : ℕ → ℕ → ℕ → ℕ → Option ℚ) (day : ℤ)
    (h : ∀ v ∈ m.variants, v.name ≠ "A") :
    PeekingProxyMethod.run_check m z day = m := by
  rw [PeekingProxyMethod.run_check]
  split
  · rfl
  · have hf : m.variants.find? (fun v => v.name == "A") = none := by
      rw [List.find?_eq_none]
      intro v hv
      simpa using h v hv
    rw [hf]

def vC4 : Variant :=
  { name := "B", true_conv_rate := 3/100, true_aov := 100, gamma_scale := 16,
    gamma_shape := 25/4, visitors := 0, conversions := 0,
    conversion_revenues := [] }

def mC4 : BayesianFramework :=
  { variants := [vC4], name := "Bayesian Framework", is_stopped := false,
    decision := "N/A (Timed Out)", stop_day := -1, epsilon := 1, S := 1 }

/-- Claim C4 counterexample: for a BayesianFramework whose variant set has
no entry named A, run_check is not a no-op: at this concrete state one
call flips the stopped flag and declares variant B the winner. -/
theorem bayes_missing_control_not_noop :
    (∀ v ∈ mC4.variants, v.name ≠ "A") ∧
    BayesianFramework.run_check mC4 (fun _ _ _ => 0) 1 =
      some { mC4 with
        is_stopped := true
        stop_day := 1
        decision := winnerDecision "B" } := by
  constructor
  · intro v hv
    have hv2 : v = vC4 := by simpa [mC4] using hv
    subst hv2
    decide
  · norm_num [BayesianFramework.run_check, expectedLosses, rpdSamples, argminFirst,
      listMax, mC4, vC4, winnerDecision, List.range, List.range.loop]
    exact fun h2 => absurd h2 (by decide)

def vC4w : Variant :=
  { name := "C", true_conv_rate := 2/100, true_aov := 80, gamma_scale := 10,
    gamma_shape := 8, visitors := 30, conversions := 2,
    conversion_revenues := [70, 90] }

def mC4w : Methodology :=
  { variants := [vC4w], name := "Peeking (Proxy)", is_stopped := false,
    decision := "N/A (Timed Out)", stop_day := -1 }

/-- Witness for the amended claim C4 at a concrete control-free state. -/
theorem peeking_missing_control_noop_witness :
    (∀ v ∈ mC4w.variants, v.name ≠ "A") ∧
    PeekingProxyMethod.run_check mC4w (fun _ _ _ _ => some (1/100)) 6 = mC4w :=
  ⟨by
    intro v hv
    have hv2 : v = vC4w := by simpa [mC4w] using hv
    subst hv2
    decide,
   peeking_missing_control_noop mC4w (fun _ _ _ _ => some (1/100)) 6 (by
    intro v hv
    have hv2 : v = vC4w := by simpa [mC4w] using hv
    subst hv2
    decide)⟩

/-- Claim C10: with a positive true mean order value (as the configuration
domain requires) Variant construction succeeds exactly when the
order-value standard deviation is nonzero: at aov_std_dev = 0 the variance
is 0, gamma_scale is 0, and the gamma shape division true_aov / gamma_scale
is a division by zero, so construction fails. -/
theorem variant_init_fails_iff_zero_sd (name : String) (p aov sd : ℚ)
    (haov : 0 < aov) (hsd : 0 ≤ sd) :
    (Variant.init name p aov sd).isSome ↔ 0 < sd := by
  simp only [Variant.init]
  rw [if_neg (ne_of_gt haov)]
  by_cases h0 : sd = 0
  · subst h0
    norm_num
  · have hpos : 0 < sd := lt_of_le_of_ne hsd (Ne.symm h0)
    have hsc : sd ^ 2 / aov ≠ 0 :=
      div_ne_zero (pow_ne_zero _ h0) (ne_of_gt haov)
    rw [if_neg hsc]
    simpa using hpos

/-- Witness for claim C10: at aov_std_dev = 0 construction yields no
Variant. -/
theorem variant_init_fails_iff_zero_sd_witness :
    0 < (100 : ℚ) ∧ 0 ≤ (0 : ℚ) ∧
    ((Variant.init "A" (3/100) 100 0).isSome ↔ 0 < (0 : ℚ)) :=
  ⟨by norm_num, le_refl 0,
   variant_init_fails_iff_zero_sd "A" (3/100) 100 0 (by norm_num) (le_refl 0)⟩

/-- A freshly constructed Variant starts with zero visitors, zero
conversions and an empty revenue history. -/
theorem variant_init_counters {name : String} {p aov sd : ℚ} {v : Variant}
    (h : Variant.init name p aov sd = some v) :
    v.visitors = 0 ∧ v.conversions = 0 ∧ v.conversion_revenues = [] := by
  simp only [Variant.init] at h
  split at h
  · exact absurd h (by simp)
  · split at h
    · exact absurd h (by simp)
    · obtain rfl := Option.some.inj h
      exact ⟨rfl, rfl, rfl⟩

/-- Folding growth steps whose draws respect the binomial support and the
positive gamma support preserves the data invariant and appends exactly the
sampled revenue batches to the history. -/
theorem applySteps_invariant :
    ∀ (steps : List GrowthStep),
      (∀ g ∈ steps, g.c ≤ g.n ∧ g.revs.length = g.c ∧ ∀ r ∈ g.revs, 0 < r) →
      ∀ v : Variant, v.conversions ≤ v.visitors →
        (∀ r ∈ v.conversion_revenues, 0 < r) →
        (applySteps v steps).conversions ≤ (applySteps v steps).visitors ∧
        (∀ r ∈ (applySteps v steps).conversion_revenues, 0 < r) ∧
        (applySteps v steps).conversion_revenues =
          v.conversion_revenues ++ (steps.map (fun g => g.revs)).flatten := by
  intro steps
  induction steps with
  | nil =>
    intro _ v h1 h2
    exact ⟨h1, h2, by simp [applySteps]⟩
  | cons g rest ih =>
    intro hsteps v h1 h2
    obtain ⟨hc, hlen, hpos⟩ := hsteps g (List.mem_cons_self _ _)
    have hrest := fun w hw => hsteps w (List.mem_cons_of_mem _ hw)
    have hstep1 : (v.add_visitors g.n g.c g.revs).conversions ≤
        (v.add_visitors g.n g.c g.revs).visitors := by
      simp only [Variant.add_visitors]
      omega
    have hstep2 : ∀ r ∈ (v.add_visitors g.n g.c g.revs).conversion_revenues, 0 < r := by
      intro r hr
      simp only [Variant.add_visitors, List.mem_append] at hr
      rcases hr with hr | hr
      · exact h2 r hr
      · exact hpos r hr
    obtain ⟨i1, i2, i3⟩ := ih hrest (v.add_visitors g.n g.c g.revs) hstep1 hstep2
    refine ⟨i1, i2, ?_⟩
    have hstep : applySteps v (g :: rest) =
        applySteps (v.add_visitors g.n g.c g.revs) rest := rfl
    rw [hstep, i3]
    simp [Variant.add_visitors]

/-- Claim C5: from a Variant successfully constructed with in-domain
parameters, any sequence of add_visitors calls, each with a nonnegative
visitor count, a binomially supported conversion draw (at most the visitor
count) and strictly positive gamma revenue draws, keeps the conversion
count at most the visitor count, keeps every recorded order value strictly
positive, and only ever appends to the history: the final history is
exactly the concatenation of the appended batches, never pruned or reset. -/
theorem variant_growth_invariant (name : String) (p aov sd : ℚ) (v0 : Variant)
    (_hp0 : 0 < p) (_hp1 : p < 1) (_haov : 0 < aov) (_hsd : 0 ≤ sd)
    (hinit : Variant.init name p aov sd = some v0)
    (steps : List GrowthStep)
    (hsteps : ∀ g ∈ steps, g.c ≤ g.n ∧ g.revs.length = g.c ∧ ∀ r ∈ g.revs, 0 < r) :
    (applySteps v0 steps).conversions ≤ (applySteps v0 steps).visitors ∧
    (∀ r ∈ (applySteps v0 steps).conversion_revenues, 0 < r) ∧
    (applySteps v0 steps).conversion_revenues =
      (steps.map (fun g => g.revs)).flatten := by
  obtain ⟨h1, h2, h3⟩ := variant_init_counters hinit
  obtain ⟨a, b, c⟩ := applySteps_invariant steps hsteps v0
    (by rw [h1, h2]) (by rw [h3]; intro r hr; cases hr)
  exact ⟨a, b, by rw [c, h3]; simp⟩

def v0C5 : Variant :=
  { name := "A", true_conv_rate := 3/100, true_aov := 100, gamma_scale := 16,
    gamma_shape := 25/4, visitors := 0, conversions := 0,
    conversion_revenues := [] }

def stepsC5 : List GrowthStep := [⟨10, 2, [5, 7]⟩, ⟨5, 0, []⟩, ⟨8, 1, [3]⟩]

/-- Witness for claim C5 at a concrete construction and growth history. -/
theorem variant_growth_invariant_witness :
    Variant.init "A" (3/100) 100 40 = some v0C5 ∧
    (∀ g ∈ stepsC5, g.c ≤ g.n ∧ g.revs.length = g.c ∧ ∀ r ∈ g.revs, 0 < r) ∧
    ((applySteps v0C5 stepsC5).conversions ≤ (applySteps v0C5 stepsC5).visitors ∧
     (∀ r ∈ (applySteps v0C5 stepsC5).conversion_revenues, 0 < r) ∧
     (applySteps v0C5 stepsC5).conversion_revenues =
       (stepsC5.map (fun g => g.revs)).flatten) := by
  have hinit : Variant.init "A" (3/100) 100 40 = some v0C5 := by
    norm_num [Variant.init, v0C5]
  have hsteps : ∀ g ∈ stepsC5, g.c ≤ g.n ∧ g.revs.length = g.c ∧
      ∀ r ∈ g.revs, 0 < r := by
    intro g hg
    fin_cases hg <;> norm_num
  exact ⟨hinit, hsteps,
    variant_growth_invariant "A" (3/100) 100 40 v0C5 (by norm_num) (by norm_num)
      (by norm_num) (by norm_num) hinit stepsC5 hsteps⟩

/-- Claim C7: inside the Monte Carlo decision step of
BayesianFramework.run_check, at every draw index the loss of every variant
(the per-draw maximum RPV over all variants minus the own draw of the variant)
is nonnegative, and some variant attains the per-draw maximum, making its
loss exactly zero. -/
theorem per_draw_loss_nonneg_winner_zero (variants : List Variant)
    (draw : ℕ → Posterior → ℕ → ℚ) (S s : ℕ) :
    (∀ p ∈ rpdSamples variants draw S,
      0 ≤ listMax ((rpdSamples variants draw S).map (fun q => q.2.getD s 0)) -
        p.2.getD s 0) ∧
    (variants ≠ [] → ∃ p ∈ rpdSamples variants draw S,
      listMax ((rpdSamples variants draw S).map (fun q => q.2.getD s 0)) -
        p.2.getD s 0 = 0) := by
  constructor
  · intro p hp
    have hmem : p.2.getD s 0 ∈
        (rpdSamples variants draw S).map (fun q => q.2.getD s 0) :=
      List.mem_map_of_mem _ hp
    have := le_listMax hmem
    linarith
  · intro hne
    have hne2 : (rpdSamples variants draw S).map (fun q => q.2.getD s 0) ≠ [] := by
      intro hc
      apply hne
      have hlen := congrArg List.length hc
      simp [rpdSamples] at hlen
      exact hlen
    obtain ⟨p, hp, hpe⟩ := List.mem_map.mp (listMax_mem hne2)
    refine ⟨p, hp, ?_⟩
    rw [hpe]
    exact sub_self _

def vC7 : Variant :=
  { name := "A", true_conv_rate := 3/100, true_aov := 100, gamma_scale := 16,
    gamma_shape := 25/4, visitors := 20, conversions := 1,
    conversion_revenues := [110] }

/-- Witness for claim C7 at a concrete variant list, oracle and draw. -/
theorem per_draw_loss_nonneg_winner_zero_witness :
    (∀ p ∈ rpdSamples [vC7] (fun _ _ _ => 2) 1,
      0 ≤ listMax ((rpdSamples [vC7] (fun _ _ _ => 2) 1).map (fun q => q.2.getD 0 0)) -
        p.2.getD 0 0) ∧
    ([vC7] ≠ ([] : List Variant) → ∃ p ∈ rpdSamples [vC7] (fun _ _ _ => 2) 1,
      listMax ((rpdSamples [vC7] (fun _ _ _ => 2) 1).map (fun q => q.2.getD 0 0)) -
        p.2.getD 0 0 = 0) :=
  per_draw_loss_nonneg_winner_zero [vC7] (fun _ _ _ => 2) 1 0

/-- Claim C9: both procedures identify the control purely by the literal
variant name A.  A PeekingProxyMethod call that stops always carries a
winner declaration for a name different from A, so the variant named A is
never declared its winner; and a BayesianFramework call that stops issues
the futility decision exactly when the minimum-expected-loss entry found by
the argmin scan is named A, declaring that entry the winner in every other
stopping case. -/
theorem control_identified_by_name_A :
    (∀ (m : Methodology) (z : ℕ → ℕ → ℕ → ℕ → Option ℚ) (day : ℤ),
      m.is_stopped = false →
      (PeekingProxyMethod.run_check m z day).is_stopped = true →
      ∃ n, n ≠ "A" ∧
        (PeekingProxyMethod.run_check m z day).decision = winnerDecision n) ∧
    (∀ (b : BayesianFramework) (draw : ℕ → Posterior → ℕ → ℚ) (day : ℤ)
      (b2 : BayesianFramework),
      b.is_stopped = false →
      BayesianFramework.run_check b draw day = some b2 →
      b2.is_stopped = true →
      ∃ best, argminFirst (expectedLosses b.variants draw b.S) = some best ∧
        best.2 < b.epsilon ∧
        (b2.decision = "Stopped for Futility" ↔ best.1 = "A")) := by
  constructor
  · intro m z day h0 h1
    cases hf : m.variants.find? (fun v => v.name == "A") with
    | none =>
      have hid : PeekingProxyMethod.run_check m z day = m := by
        rw [PeekingProxyMethod.run_check, if_neg (by simp [h0]), hf]
      rw [hid] at h1
      simp [h0] at h1
    | some ctl =>
      by_cases hv : ctl.visitors = 0
      · have hid : PeekingProxyMethod.run_check m z day = m := by
          rw [PeekingProxyMethod.run_check, if_neg (by simp [h0]), hf]
          show (if ctl.visitors = 0 then m
                else peekingLoop z ctl day m m.variants) = m
          rw [if_pos hv]
        rw [hid] at h1
        simp [h0] at h1
      · have hrun : PeekingProxyMethod.run_check m z day =
            peekingLoop z ctl day m m.variants := by
          rw [PeekingProxyMethod.run_check, if_neg (by simp [h0]), hf]
          show (if ctl.visitors = 0 then m
                else peekingLoop z ctl day m m.variants) = _
          rw [if_neg hv]
        rw [hrun] at h1 ⊢
        rcases peekingLoop_self_or_stop z ctl day m m.variants with h | ⟨v, _, hvA, hst⟩
        · rw [h] at h1
          simp [h0] at h1
        · rw [hst]
          exact ⟨v.name, hvA, rfl⟩
  · intro b draw day b2 h0 hrc h2
    rw [BayesianFramework.run_check, if_neg (by simp [h0])] at hrc
    cases ha : argminFirst (expectedLosses b.variants draw b.S) with
    | none =>
      rw [ha] at hrc
      cases hrc
    | some best =>
      rw [ha] at hrc
      have hrc2 : (if best.2 < b.epsilon then
          some { b with
            is_stopped := true
            stop_day := day
            decision := if best.1 = "A" then "Stopped for Futility"
                        else winnerDecision best.1 }
          else some b) = some b2 := hrc
      by_cases he : best.2 < b.epsilon
      · rw [if_pos he] at hrc2
        obtain rfl := Option.some.inj hrc2
        refine ⟨best, rfl, he, ?_⟩
        show (if best.1 = "A" then "Stopped for Futility"
              else winnerDecision best.1) = "Stopped for Futility" ↔ best.1 = "A"
        constructor
        · intro hdec
          by_cases hA : best.1 = "A"
          · exact hA
          · rw [if_neg hA] at hdec
            exact absurd hdec (winnerDecision_ne_futility _)
        · intro hA
          rw [if_pos hA]
      · rw [if_neg he] at hrc2
        obtain rfl := Option.some.inj hrc2
        simp [h0] at h2

def vA9 : Variant :=
  { name := "A", true_conv_rate := 3/100, true_aov := 100, gamma_scale := 16,
    gamma_shape := 25/4, visitors := 100, conversions := 6,
    conversion_revenues := [] }

def vB9 : Variant :=
  { name := "B", true_conv_rate := 3/100, true_aov := 100, gamma_scale := 16,
    gamma_shape := 25/4, visitors := 50, conversions := 6,
    conversion_revenues := [] }

def mC9 : Methodology :=
  { variants := [vA9, vB9], name := "Peeking (Proxy)", is_stopped := false,
    decision := "N/A (Timed Out)", stop_day := -1 }

def zC9 : ℕ → ℕ → ℕ → ℕ → Option ℚ := fun _ _ _ _ => some (1/100)

def bC9 : BayesianFramework :=
  { variants := [vA9], name := "Bayesian Framework", is_stopped := false,
    decision := "N/A (Timed Out)", stop_day := -1, epsilon := 1, S := 1 }

def b2C9 : BayesianFramework :=
  { variants := [vA9], name := "Bayesian Framework", is_stopped := true,
    decision := "Stopped for Futility", stop_day := 2, epsilon := 1, S := 1 }

/-- Witness for claim C9 at concrete stopping runs of both procedures. -/
theorem control_identified_by_name_A_witness :
    (mC9.is_stopped = false ∧
     (PeekingProxyMethod.run_check mC9 zC9 7).is_stopped = true ∧
     ∃ n, n ≠ "A" ∧
       (PeekingProxyMethod.run_check mC9 zC9 7).decision = winnerDecision n) ∧
    (bC9.is_stopped = false ∧
     BayesianFramework.run_check bC9 (fun _ _ _ => 0) 2 = some b2C9 ∧
     b2C9.is_stopped = true ∧
     ∃ best, argminFirst (expectedLosses bC9.variants (fun _ _ _ => 0) bC9.S) =
         some best ∧ best.2 < bC9.epsilon ∧
       (b2C9.decision = "Stopped for Futility" ↔ best.1 = "A")) := by
  have hrun : (PeekingProxyMethod.run_check mC9 zC9 7).is_stopped = true := by
    norm_num [PeekingProxyMethod.run_check, peekingLoop, convRate, mC9, vA9, vB9,
      zC9, List.find?]
    decide
  have hb : BayesianFramework.run_check bC9 (fun _ _ _ => 0) 2 = some b2C9 := by
    norm_num [BayesianFramework.run_check, expectedLosses, rpdSamples, argminFirst,
      listMax, bC9, b2C9, vA9, List.range, List.range.loop]
  exact ⟨⟨rfl, hrun, control_identified_by_name_A.1 mC9 zC9 7 rfl hrun⟩,
         ⟨rfl, hb, rfl, control_identified_by_name_A.2 bC9 (fun _ _ _ => 0) 2 b2C9 rfl hb rfl⟩⟩

/-- Claim C3 (amended): in PeekingProxyMethod.run_check, non-control
variants are processed in the fixed list order of the variant dictionary; a
variant is tested only if both it and the control have at least 5
conversions, where 5 is the literal hardwired in the source (the
constructor takes no threshold), and its conversion-rate point estimate
exceeds that of the control; the first tested variant whose p-value is below 0.05
is declared the winner with stop day the current day and no further
variant is tested on that call. -/
theorem peeking_first_significant_winner_gate5 :
    (∀ (z : ℕ → ℕ → ℕ → ℕ → Option ℚ) (ctl : Variant) (day : ℤ)
      (m : Methodology) (v : Variant) (rest : List Variant) (p : ℚ),
      v.name ≠ "A" → ¬ v.conversions < 5 → ¬ ctl.conversions < 5 →
      convRate ctl < convRate v →
      z v.conversions ctl.conversions v.visitors ctl.visitors = some p →
      p < 1/20 →
      peekingLoop z ctl day m (v :: rest) =
        { m with is_stopped := true, decision := winnerDecision v.name,
                 stop_day := day }) ∧
    (∀ (z : ℕ → ℕ → ℕ → ℕ → Option ℚ) (ctl : Variant) (day : ℤ)
      (m : Methodology) (v : Variant) (rest : List Variant),
      (v.name = "A" ∨ v.conversions < 5 ∨ ctl.conversions < 5 ∨
       ¬ convRate ctl < convRate v ∨
       z v.conversions ctl.conversions v.visitors ctl.visitors = none ∨
       (∃ p, z v.conversions ctl.conversions v.visitors ctl.visitors = some p ∧
         ¬ p < 1/20)) →
      peekingLoop z ctl day m (v :: rest) = peekingLoop z ctl day m rest) ∧
    (∀ (z₁ z₂ : ℕ → ℕ → ℕ → ℕ → Option ℚ) (m : Methodology) (day : ℤ),
      (∀ a b c d : ℕ, ¬ a < 5 → ¬ b < 5 →
        (b : ℚ) / (d : ℚ) < (a : ℚ) / (c : ℚ) → z₁ a b c d = z₂ a b c d) →
      PeekingProxyMethod.run_check m z₁ day =
        PeekingProxyMethod.run_check m z₂ day) := by
  refine ⟨?_, ?_, ?_⟩
  · intro z ctl day m v rest p hA hg1 hg2 hrate hz hp
    rw [peekingLoop_cons_some hA (not_or.mpr ⟨hg1, hg2⟩) hrate hz, if_pos hp]
  · intro z ctl day m v rest hcase
    by_cases hA : v.name = "A"
    · exact peekingLoop_cons_ctl hA
    · by_cases hgate : v.conversions < 5 ∨ ctl.conversions < 5
      · exact peekingLoop_cons_gate hA hgate
      · by_cases hrate : convRate ctl < convRate v
        · rcases hcase with h | h | h | h | h | ⟨p, hzp, hp⟩
          · exact absurd h hA
          · exact absurd (Or.inl h) hgate
          · exact absurd (Or.inr h) hgate
          · exact absurd hrate h
          · exact peekingLoop_cons_none hA hgate hrate h
          · rw [peekingLoop_cons_some hA hgate hrate hzp, if_neg hp]
        · exact peekingLoop_cons_rate hA hgate hrate
  · intro z₁ z₂ m day hz
    by_cases hs : m.is_stopped = true
    · rw [PeekingProxyMethod.run_check, PeekingProxyMethod.run_check,
        if_pos hs, if_pos hs]
    · rw [PeekingProxyMethod.run_check, PeekingProxyMethod.run_check,
        if_neg hs, if_neg hs]
      cases hf : m.variants.find? (fun v => v.name == "A") with
      | none => rfl
      | some ctl =>
        show (if ctl.visitors = 0 then m else peekingLoop z₁ ctl day m m.variants) =
          (if ctl.visitors = 0 then m else peekingLoop z₂ ctl day m m.variants)
        by_cases hv : ctl.visitors = 0
        · rw [if_pos hv, if_pos hv]
        · rw [if_neg hv, if_neg hv]
          exact peekingLoop_congr z₁ z₂ ctl day m hz m.variants

def vA3w : Variant :=
  { name := "A", true_conv_rate := 3/100, true_aov := 100, gamma_scale := 16,
    gamma_shape := 25/4, visitors := 100, conversions := 6,
    conversion_revenues := [] }

def vB3w : Variant :=
  { name := "B", true_conv_rate := 3/100, true_aov := 100, gamma_scale := 16,
    gamma_shape := 25/4, visitors := 50, conversions := 6,
    conversion_revenues := [] }

def mC3w : Methodology :=
  { variants := [vA3w, vB3w], name := "Peeking (Proxy)", is_stopped := false,
    decision := "N/A (Timed Out)", stop_day := -1 }

def zC3w : ℕ → ℕ → ℕ → ℕ → Option ℚ := fun _ _ _ _ => some (1/100)

/-- Witness for the amended claim C3 at a concrete qualifying variant. -/
theorem peeking_first_significant_winner_gate5_witness :
    (vB3w.name ≠ "A" ∧ ¬ vB3w.conversions < 5 ∧ ¬ vA3w.conversions < 5 ∧
     convRate vA3w < convRate vB3w ∧
     zC3w vB3w.conversions vA3w.conversions vB3w.visitors vA3w.visitors =
       some (1/100) ∧ (1/100 : ℚ) < 1/20) ∧
    peekingLoop zC3w vA3w 7 mC3w [vB3w] =
      { mC3w with is_stopped := true, decision := winnerDecision vB3w.name,
                  stop_day := 7 } := by
  have hrate : convRate vA3w < convRate vB3w := by
    norm_num [convRate, vA3w, vB3w]
  exact ⟨⟨by decide, by decide, by decide, hrate, rfl, by norm_num⟩,
    peeking_first_significant_winner_gate5.1 zC3w vA3w 7 mC3w vB3w [] (1/100)
      (by decide) (by decide) (by decide) hrate rfl (by norm_num)⟩

/-- Modelled from the spec: the PeekingProxyMethod variant loop as section
4.3 words it, with the minimum conversion count read as a configurable
construction-time threshold minConv (the spec names 5 and 10 as observed
values) instead of the literal the source hardwires. -/
def peekingLoopSpec (minConv : ℕ) (ztest : ℕ → ℕ → ℕ → ℕ → Option ℚ)
    (control : Variant) (day : ℤ) (m : Methodology) :
    List Variant → Methodology
  | [] => m
  | v :: rest =>
    if v.name = "A" then peekingLoopSpec minConv ztest control day m rest
    else if v.conversions < minConv ∨ control.conversions < minConv then
      peekingLoopSpec minConv ztest control day m rest
    else if convRate control < convRate v then
      match ztest v.conversions control.conversions v.visitors control.visitors with
      | some p =>
        if p < 1/20 then
          { m with is_stopped := true, decision := winnerDecision v.name,
                   stop_day := day }
        else peekingLoopSpec minConv ztest control day m rest
      | none => peekingLoopSpec minConv ztest control day m rest
    else peekingLoopSpec minConv ztest control day m rest

/-- Modelled from the spec: PeekingProxyMethod.run_check with the
configurable minimum-conversions threshold of section 4.3. -/
def peekingRunCheckSpec (minConv : ℕ) (m : Methodology)
    (ztest : ℕ → ℕ → ℕ → ℕ → Option ℚ) (day : ℤ) : Methodology :=
  if m.is_stopped then m
  else
    match m.variants.find? (fun v => v.name == "A") with
    | none => m
    | some control =>
      if control.visitors = 0 then m
      else peekingLoopSpec minConv ztest control day m m.variants

def vB3y : Variant :=
  { name := "B", true_conv_rate := 3/100, true_aov := 100, gamma_scale := 16,
    gamma_shape := 25/4, visitors := 50, conversions := 4,
    conversion_revenues := [] }

def mC3y : Methodology :=
  { variants := [vA3w, vB3y], name := "Peeking (Proxy)", is_stopped := false,
    decision := "N/A (Timed Out)", stop_day := -1 }

/-- Claim C3 counterexample: the minimum conversion count is the hardcoded
literal 5, not a construction-time configurable threshold.  With variant B
at 6 conversions the source tests it and stops, while the spec reading with
the configured threshold 10 (a value the spec itself names) does not test
at all; the source coincides with the spec reading only at threshold 5, and
at 4 conversions the source skips the variant, pinning the literal 5. -/
theorem peeking_threshold_hardcoded_counterexample :
    (PeekingProxyMethod.run_check mC3w zC3w 7).is_stopped = true ∧
    (peekingRunCheckSpec 10 mC3w zC3w 7).is_stopped = false ∧
    PeekingProxyMethod.run_check mC3w zC3w 7 = peekingRunCheckSpec 5 mC3w zC3w 7 ∧
    (PeekingProxyMethod.run_check mC3y zC3w 7).is_stopped = false := by
  refine ⟨?_, ?_, ?_, ?_⟩
  · norm_num [PeekingProxyMethod.run_check, peekingLoop, convRate, mC3w, vA3w,
      vB3w, zC3w, List.find?]
    decide
  · norm_num [peekingRunCheckSpec, peekingLoopSpec, convRate, mC3w, vA3w, vB3w,
      zC3w, List.find?]
  · norm_num [PeekingProxyMethod.run_check, peekingRunCheckSpec, peekingLoop,
      peekingLoopSpec, convRate, mC3w, vA3w, vB3w, zC3w, List.find?]
  · norm_num [PeekingProxyMethod.run_check, peekingLoop, convRate, mC3y, vA3w,
      vB3y, zC3w, List.find?]

/-- Claim C1: a run_check call on a non-stopped BayesianFramework with at
least one variant and a positive Monte Carlo sample count selects an entry
of the expected-loss table (mean over the S draws of per-draw maximum minus
own draw) whose expected loss is minimal over all variants; the call stops
exactly when that minimum expected loss is below epsilon, in which case the
stop day becomes the current day and the decision is the futility label
when the selected variant is named A and the winner declaration for it
otherwise; when the minimum is not below epsilon the state is unchanged. -/
theorem bayes_run_check_selects_min_loss (b : BayesianFramework)
    (draw : ℕ → Posterior → ℕ → ℚ) (day : ℤ)
    (hstop : b.is_stopped = false) (hne : b.variants ≠ []) (_hS : 0 < b.S) :
    ∃ best, argminFirst (expectedLosses b.variants draw b.S) = some best ∧
      best ∈ expectedLosses b.variants draw b.S ∧
      (∀ q ∈ expectedLosses b.variants draw b.S, best.2 ≤ q.2) ∧
      BayesianFramework.run_check b draw day =
        some (if best.2 < b.epsilon then
          { b with
            is_stopped := true
            stop_day := day
            decision := if best.1 = "A" then "Stopped for Futility"
                        else winnerDecision best.1 }
        else b) := by
  have hELne : expectedLosses b.variants draw b.S ≠ [] := by
    intro hc
    apply hne
    have hl := congrArg List.length hc
    rw [expectedLosses_length] at hl
    exact List.eq_nil_of_length_eq_zero hl
  obtain ⟨p, rest, heq⟩ := List.exists_cons_of_ne_nil hELne
  have ha : argminFirst (expectedLosses b.variants draw b.S) =
      some (rest.foldl argminStep p) := by
    rw [heq]
    rfl
  have hmem : rest.foldl argminStep p ∈ expectedLosses b.variants draw b.S := by
    rw [heq]
    rcases argmin_foldl_mem rest p with h | h
    · rw [h]
      exact List.mem_cons_self _ _
    · exact List.mem_cons_of_mem _ h
  have hle : ∀ q ∈ expectedLosses b.variants draw b.S,
      (rest.foldl argminStep p).2 ≤ q.2 := by
    intro q hq
    rw [heq] at hq
    rcases List.mem_cons.mp hq with h | h
    · rw [h]
      exact (argmin_foldl_le rest p).1
    · exact (argmin_foldl_le rest p).2 q h
  refine ⟨rest.foldl argminStep p, ha, hmem, hle, ?_⟩
  rw [BayesianFramework.run_check, if_neg (by simp [hstop]), ha]
  show (if (rest.foldl argminStep p).2 < b.epsilon then
      some { b with
        is_stopped := true
        stop_day := day
        decision := if (rest.foldl argminStep p).1 = "A" then "Stopped for Futility"
                    else winnerDecision (rest.foldl argminStep p).1 }
      else some b) =
    some (if (rest.foldl argminStep p).2 < b.epsilon then
      { b with
        is_stopped := true
        stop_day := day
        decision := if (rest.foldl argminStep p).1 = "A" then "Stopped for Futility"
                    else winnerDecision (rest.foldl argminStep p).1 }
      else b)
  by_cases he : (rest.foldl argminStep p).2 < b.epsilon
  · rw [if_pos he, if_pos he]
  · rw [if_neg he, if_neg he]

def vA1 : Variant :=
  { name := "A", true_conv_rate := 3/100, true_aov := 100, gamma_scale := 16,
    gamma_shape := 25/4, visitors := 40, conversions := 3,
    conversion_revenues := [90, 100, 110] }

def vB1 : Variant :=
  { name := "B", true_conv_rate := 32/1000, true_aov := 90, gamma_scale := 12,
    gamma_shape := 15/2, visitors := 40, conversions := 2,
    conversion_revenues := [85, 95] }

def bC1 : BayesianFramework :=
  { variants := [vA1, vB1], name := "Bayesian Framework", is_stopped := false,
    decision := "N/A (Timed Out)", stop_day := -1, epsilon := 1/1000, S := 2 }

def drawC1 : ℕ → Posterior → ℕ → ℚ := fun i _ s => ((i + s : ℕ) : ℚ) + 1

/-- Witness for claim C1 at a concrete two-variant framework. -/
theorem bayes_run_check_selects_min_loss_witness :
    bC1.is_stopped = false ∧ bC1.variants ≠ [] ∧ 0 < bC1.S ∧
    (∃ best, argminFirst (expectedLosses bC1.variants drawC1 bC1.S) = some best ∧
      best ∈ expectedLosses bC1.variants drawC1 bC1.S ∧
      (∀ q ∈ expectedLosses bC1.variants drawC1 bC1.S, best.2 ≤ q.2) ∧
      BayesianFramework.run_check bC1 drawC1 3 =
        some (if best.2 < bC1.epsilon then
          { bC1 with
            is_stopped := true
            stop_day := 3
            decision := if best.1 = "A" then "Stopped for Futility"
                        else winnerDecision best.1 }
        else bC1)) :=
  ⟨rfl, by decide, by decide,
   bayes_run_check_selects_min_loss bC1 drawC1 3 rfl (by decide) (by decide)⟩

/-- Spec-side comparison value (section 4.4): the sample mean of the k
observed conversion values, with k the conversion count. -/
def specXbar (v : Variant) : ℚ :=
  v.conversion_revenues.sum / (v.conversions : ℚ)

/-- Spec-side comparison value (section 4.4): the sum of squared deviations
from the sample mean. -/
def specSSD (v : Variant) : ℚ :=
  (v.conversion_revenues.map (fun x => (x - specXbar v) ^ 2)).sum

/-- Spec-side comparison value (section 4.4): posterior_mean_loc with prior
pseudo-count 1 and prior mean 100. -/
def specLoc (v : Variant) : ℚ :=
  (1 * 100 + (v.conversions : ℚ) * specXbar v) / (1 + (v.conversions : ℚ))

/-- Spec-side comparison value (section 4.4): posterior_pseudo_cnt. -/
def specPseudo (v : Variant) : ℚ :=
  1 + (v.conversions : ℚ)

/-- Spec-side comparison value (section 4.4): posterior_shape with prior
shape 1. -/
def specShape (v : Variant) : ℚ :=
  1 + (v.conversions : ℚ) / 2

/-- Spec-side comparison value (section 4.4): posterior_scale with prior
scale 1 and prior pseudo-count 1. -/
def specScale (v : Variant) : ℚ :=
  1 + 1/2 * specSSD v +
    ((v.conversions : ℚ) * 1 / (1 + (v.conversions : ℚ))) * (1/2) *
      (specXbar v - 100) ^ 2

/-- Claim C2: for every variant, the conversion-rate posterior requested by
BayesianFramework.run_check is Beta(1 + conversions,
1 + (visitors − conversions)); when the variant has at least 2 conversions
the value posterior requested is the location-scale Student-t with degrees
of freedom 2·posterior_shape, location posterior_mean_loc and squared scale
posterior_scale / (posterior_shape · posterior_pseudo_cnt), where the
posterior parameters come from the prior hyperparameters (mean 100,
pseudo-count 1, shape 1, scale 1) by exactly the Normal-Inverse-Gamma
update formulas of the spec; with fewer than 2 conversions the wide normal
fallback centered at the prior mean (scale 50) is requested instead.  The
hypothesis records the data invariant that the revenue history holds
exactly one value per conversion, identifying np.mean with the sample mean
over k values. -/
theorem bayes_posteriors_match_spec (v : Variant)
    (hlen : v.conversion_revenues.length = v.conversions) :
    (convPosterior v =
      Posterior.beta (1 + (v.conversions : ℚ))
        (1 + ((v.visitors : ℚ) - (v.conversions : ℚ)))) ∧
    (2 ≤ v.conversions →
      valuePosterior v =
        Posterior.studentT (2 * specShape v) (specLoc v)
          (specScale v / (specShape v * specPseudo v))) ∧
    (v.conversions < 2 → valuePosterior v = Posterior.normal 100 50) := by
  refine ⟨rfl, ?_, ?_⟩
  · intro h2
    simp only [valuePosterior, specShape, specLoc, specScale, specPseudo,
      specXbar, specSSD]
    rw [if_pos (by omega : 1 < v.conversions), hlen]
  · intro h2
    simp only [valuePosterior]
    rw [if_neg (by omega : ¬ 1 < v.conversions)]

def vC2 : Variant :=
  { name := "B", true_conv_rate := 3/100, true_aov := 100, gamma_scale := 16,
    gamma_shape := 25/4, visitors := 10, conversions := 3,
    conversion_revenues := [80, 100, 120] }

/-- Witness for claim C2 at a concrete variant with three conversions. -/
theorem bayes_posteriors_match_spec_witness :
    vC2.conversion_revenues.length = vC2.conversions ∧
    ((convPosterior vC2 =
      Posterior.beta (1 + (vC2.conversions : ℚ))
        (1 + ((vC2.visitors : ℚ) - (vC2.conversions : ℚ)))) ∧
    (2 ≤ vC2.conversions →
      valuePosterior vC2 =
        Posterior.studentT (2 * specShape vC2) (specLoc vC2)
          (specScale vC2 / (specShape vC2 * specPseudo vC2))) ∧
    (vC2.conversions < 2 → valuePosterior vC2 = Posterior.normal 100 50)) :=
  ⟨rfl, bayes_posteriors_match_spec vC2 rfl⟩
